import Mathlib

/-!
# Resumable upload: metadata service and storage node

A shallow embedding of `phase6/15/go/master/main.go` (`RequestUpload`) and
`phase6/15/go/storage/main.go` (`StreamFile`), with the properties of the
natural-language specification proved over it.

Conventions of the embedding.

* A Go `error` value is a `GoError`; the Go result `nil` is `none`.
* `int64` values are `Int`. The only arithmetic is `totalBytes += int64(n)`,
  which keeps `totalBytes` equal to the byte length of the open file, the
  comparison of a client offset against it, and the remainder by `1024*1024`
  (Go's truncated `%`, `Int.tmod`); none of them can leave the `int64` range.
* `file.Stat()` on the freshly opened file is taken to succeed (its error is
  dropped by the code), and a `Write` that fails may have put a prefix of the
  payload in the file.
* Everything the program obtains from outside (the clock, the channel, the
  outcome of `OpenFile`, `Write` and `Send`) is an explicit input.
-/

namespace Upload

/-! ## Errors -/

/-- The gRPC status codes of `google.golang.org/grpc/codes`. -/
inductive Code
  | OK | Canceled | Unknown | InvalidArgument | DeadlineExceeded | NotFound
  | AlreadyExists | PermissionDenied | ResourceExhausted | FailedPrecondition
  | Aborted | OutOfRange | Unimplemented | Internal | Unavailable | DataLoss
  | Unauthenticated
  deriving DecidableEq

/-- The name `Code.String()` prints. -/
def Code.name : Code → String
  | .OK => "OK" | .Canceled => "Canceled" | .Unknown => "Unknown"
  | .InvalidArgument => "InvalidArgument" | .DeadlineExceeded => "DeadlineExceeded"
  | .NotFound => "NotFound" | .AlreadyExists => "AlreadyExists"
  | .PermissionDenied => "PermissionDenied" | .ResourceExhausted => "ResourceExhausted"
  | .FailedPrecondition => "FailedPrecondition" | .Aborted => "Aborted"
  | .OutOfRange => "OutOfRange" | .Unimplemented => "Unimplemented"
  | .Internal => "Internal" | .Unavailable => "Unavailable" | .DataLoss => "DataLoss"
  | .Unauthenticated => "Unauthenticated"

/-- A Go `error` value: `io.EOF`, a gRPC status error (what `status.Errorf`
builds and what the transport reports), or any other error (an `os` error). -/
inductive GoError
  | eof
  | status (code : Code) (msg : String)
  | other (msg : String)
  deriving DecidableEq

/-- The text of `err.Error()`, which `%v` prints. -/
def GoError.Error : GoError → String
  | .eof => "EOF"
  | .status c m => "rpc error: code = " ++ c.name ++ " desc = " ++ m
  | .other m => m

/-- The status code of an error, as `status.Code(err)` reports it. -/
def GoError.code : GoError → Code
  | .status c _ => c
  | _ => .Unknown

/-! ## Metadata service (`master/main.go`) -/

/-- Modelled from the spec: the generated message type `pb.FileMetadata` (package
`storagepb`) is not among the sources; its fields are those the RPC surface of the
specification lists and `RequestUpload` reads or writes. -/
structure FileMetadata where
  fileId : String
  filename : String
  sizeBytes : Int
  storageNodeAddress : String
  authToken : String
  deriving DecidableEq

/-- The Go map `metadataStore`, as an association list holding one entry per key. -/
abbrev Store := List (String × FileMetadata)

/-- The map read `m[k]`. -/
def Store.get (m : Store) (k : String) : Option FileMetadata :=
  (m.find? (fun e => e.1 == k)).map Prod.snd

/-- The map assignment `m[k] = v`: the entry under `k` is replaced, or added. -/
def Store.set (m : Store) (k : String) (v : FileMetadata) : Store :=
  (k, v) :: m.filter (fun e => !(e.1 == k))

/-- The number of records, `len(m)`. -/
def Store.count (m : Store) : Nat := m.length

/-- The constant `HARDCODED_STORAGE_ADDRESS`. -/
def HARDCODED_STORAGE_ADDRESS : String := "localhost:50052"

/-- The two clock readings one call of `RequestUpload` takes:
`time.Now().UnixNano()` and then `time.Now().Unix()`. -/
structure Clock where
  unixNano : Int
  unix : Int
  deriving DecidableEq

/-- The outcome of one call of `RequestUpload`: the returned record or error, and
the metadata store after the call. -/
structure UploadReply where
  record : Option FileMetadata
  err : Option GoError
  store : Store
  deriving DecidableEq

/-- The handler `masterServer.RequestUpload`. -/
def RequestUpload (clk : Clock) (metadataStore : Store) (req : FileMetadata) : UploadReply :=
  if req.filename = "" ∨ req.sizeBytes ≤ 0 then
    { record := none
      err := some (.status .InvalidArgument "Filename and size are required.")
      store := metadataStore }
  else
    let fileId := "file_" ++ toString clk.unixNano
    let authToken := "TOKEN-" ++ toString clk.unix
    let newMeta : FileMetadata :=
      { req with fileId := fileId
                 storageNodeAddress := HARDCODED_STORAGE_ADDRESS
                 authToken := authToken }
    { record := some newMeta
      err := none
      store := metadataStore.set fileId newMeta }

/-- A sequence of calls on one store, each with its clock readings: the replies
in order, and the store after the last call. -/
def runUploads : Store → List (Clock × FileMetadata) → List UploadReply × Store
  | s, [] => ([], s)
  | s, (clk, req) :: rest =>
    let r := RequestUpload clk s req
    let out := runUploads r.store rest
    (r :: out.1, out.2)

/-! ## Storage node (`storage/main.go`) -/

/-- One byte of payload. -/
abbrev Byte := Fin 256

/-- Modelled from the spec: the generated message type `pb.FileChunk` (package
`storagepb`) is not among the sources; its fields are those of the specification's
`Chunk`, which `StreamFile` reads through `GetFileId`, `GetOffset`, `GetChunkIndex`
and `GetData`. -/
structure FileChunk where
  fileId : String
  offset : Int
  chunkIndex : Int
  data : List Byte
  deriving DecidableEq

/-- The receive direction of one connection: the chunks `stream.Recv()` delivers
in order, then the error it reports (`io.EOF` for a clean end of input). -/
structure Channel where
  chunks : List FileChunk
  ending : GoError
  deriving DecidableEq

/-- The durable files, by path: `none` where no file exists. -/
abbrev Disk := String → Option (List Byte)

/-- What the surroundings decide during one run of `StreamFile`: the path
`filepath.Join` computes, whether `os.OpenFile` fails, the error of the `k`-th
`stream.Send` (counted from 0), and the failure of the `k`-th `file.Write`:
`some (n, e)` when only the first `n` bytes reach the file and `e` is returned. -/
structure Env where
  join : String → String → String
  openErr : Option GoError
  sendErr : Nat → Option GoError
  writeErr : Nat → Option (Nat × GoError)

/-- The observable actions of one run, in the order they happen. -/
inductive Event
  | recv (c : FileChunk)
  | recvErr (e : GoError)
  | openFile (path : String) (err : Option GoError)
  | send (msg : FileChunk) (err : Option GoError)
  | write (data : List Byte) (n : Nat) (err : Option GoError)
  deriving DecidableEq

/-- The constant `STORAGE_ROOT`. -/
def STORAGE_ROOT : String := "./storage_data"

/-- The state of the receive loop: the bytes of the open file, the variable
`totalBytes`, the number of `Send` and `Write` calls made, and the actions so far. -/
structure LoopState where
  content : List Byte
  totalBytes : Int
  sends : Nat
  writes : Nat
  trace : List Event
  deriving DecidableEq

/-- A status-only chunk: `&pb.FileChunk{FileId: fileId, Offset: totalBytes}`. -/
def statusChunk (fileId : String) (totalBytes : Int) : FileChunk :=
  { fileId := fileId, offset := totalBytes, chunkIndex := 0, data := [] }

/-- Lines 84-93 of `StreamFile`: write the chunk when its offset is not behind
`totalBytes`, skip it otherwise. The file is open with `O_APPEND`, so the bytes
written go to its end. `Except.error` is the `return` of line 87. -/
def writeChunk (env : Env) (st : LoopState) (c : FileChunk) :
    Except (GoError × LoopState) LoopState :=
  if c.offset ≥ st.totalBytes then
    match env.writeErr st.writes with
    | some (n, e) =>
      .error (.status .Internal ("File write failed: " ++ e.Error),
        { st with content := st.content ++ c.data.take n
                  writes := st.writes + 1
                  trace := st.trace ++ [.write c.data (min n c.data.length) (some e)] })
    | none =>
      .ok { st with content := st.content ++ c.data
                    totalBytes := st.totalBytes + (c.data.length : Int)
                    writes := st.writes + 1
                    trace := st.trace ++ [.write c.data c.data.length none] }
  else
    .ok st

/-- Lines 96-102 of `StreamFile`: the status update, whose `Send` result is dropped. -/
def sendUpdate (env : Env) (fileId : String) (st : LoopState) : LoopState :=
  if st.totalBytes.tmod (1024 * 1024) = 0 then
    { st with sends := st.sends + 1
              trace := st.trace ++ [.send (statusChunk fileId st.totalBytes) (env.sendErr st.sends)] }
  else
    st

/-- One iteration of the loop up to the next `Recv` (lines 84-102). -/
def handleChunk (env : Env) (fileId : String) (st : LoopState) (c : FileChunk) :
    Except (GoError × LoopState) LoopState :=
  match writeChunk env st c with
  | .error r => .error r
  | .ok st1 => .ok (sendUpdate env fileId st1)

/-- The loop of lines 82-115, entered with the chunk in hand and the chunks the
channel has yet to deliver; it returns what `StreamFile` returns, and the last state. -/
def recvLoop (env : Env) (fileId : String) (ending : GoError) :
    LoopState → FileChunk → List FileChunk → Option GoError × LoopState
  | st, cur, [] =>
    match handleChunk env fileId st cur with
    | .error (e, st1) => (some e, st1)
    | .ok st1 =>
      let st2 := { st1 with trace := st1.trace ++ [.recvErr ending] }
      if ending = .eof then (none, st2) else (some ending, st2)
  | st, cur, next :: rest =>
    match handleChunk env fileId st cur with
    | .error (e, st1) => (some e, st1)
    | .ok st1 =>
      recvLoop env fileId ending { st1 with trace := st1.trace ++ [.recv next] } next rest

/-- What one run of `StreamFile` leaves behind: the returned error (`none` for
`nil`), the durable files, and the actions in order. -/
structure Result where
  err : Option GoError
  disk : Disk
  trace : List Event

/-- The handler `storageServer.StreamFile`. -/
def StreamFile (env : Env) (disk : Disk) (ch : Channel) : Result :=
  match ch.chunks with
  | [] =>
    { err := some (.status .InvalidArgument
        ("Stream started without initial chunk: " ++ ch.ending.Error))
      disk := disk
      trace := [.recvErr ch.ending] }
  | firstChunk :: rest =>
    let fileId := firstChunk.fileId
    if fileId = "" then
      { err := some (.status .InvalidArgument "File ID missing from first chunk.")
        disk := disk
        trace := [.recv firstChunk] }
    else
      let filePath := env.join STORAGE_ROOT fileId
      match env.openErr with
      | some e =>
        { err := some (.status .Internal ("Failed to open file for writing: " ++ e.Error))
          disk := disk
          trace := [.recv firstChunk, .openFile filePath (some e)] }
      | none =>
        let content := (disk filePath).getD []
        let totalBytes : Int := content.length
        let statusMsg := statusChunk fileId totalBytes
        let trace := [.recv firstChunk, .openFile filePath none, .send statusMsg (env.sendErr 0)]
        match env.sendErr 0 with
        | some e =>
          { err := some e
            disk := Function.update disk filePath (some content)
            trace := trace }
        | none =>
          let out := recvLoop env fileId ch.ending
            { content := content, totalBytes := totalBytes, sends := 1, writes := 0, trace := trace }
            firstChunk rest
          { err := out.1
            disk := Function.update disk filePath (some out.2.content)
            trace := out.2.trace }

/-- The surroundings in which nothing fails, with paths joined by a slash. -/
def Env.ideal : Env :=
  { join := fun a b => a ++ "/" ++ b, openErr := none, sendErr := fun _ => none,
    writeErr := fun _ => none }

/-! ## Vocabulary of the properties -/

/-- The receive actions of a run: the chunks received and the error that ended it. -/
def receipts (t : List Event) : List Event :=
  t.filter (fun ev => match ev with
    | .recv _ => true
    | .recvErr _ => true
    | _ => false)

/-- The messages a run sent, in order. -/
def sentMessages : List Event → List FileChunk
  | [] => []
  | .send msg _ :: t => msg :: sentMessages t
  | _ :: t => sentMessages t

/-- The bytes a run wrote to the file, in order. -/
def writtenBytes : List Event → List Byte
  | [] => []
  | .write data n _ :: t => data.take n ++ writtenBytes t
  | _ :: t => writtenBytes t

/-- The chunks the loop accepts when it starts at running length `L`: each chunk
whose offset is not behind the running length at the time it is handled. -/
def acceptedChunks : Int → List FileChunk → List FileChunk
  | _, [] => []
  | L, c :: cs =>
    if c.offset ≥ L then c :: acceptedChunks (L + (c.data.length : Int)) cs
    else acceptedChunks L cs

/-- Offsets that increase correctly from `off`: each chunk starts where the one
before it ended. -/
def chained : Int → List FileChunk → Prop
  | _, [] => True
  | off, c :: cs => c.offset = off ∧ chained (off + (c.data.length : Int)) cs

/-- The byte length of the file at a path, 0 when there is none. -/
def durableLength (disk : Disk) (path : String) : Nat :=
  match disk path with
  | some F => F.length
  | none => 0

/-- The state in which `StreamFile` enters its loop: the file at the target path
opened (created empty when absent), `totalBytes` its length, the initial status sent. -/
def loopStart (env : Env) (disk : Disk) (firstChunk : FileChunk) : LoopState :=
  { content := (disk (env.join STORAGE_ROOT firstChunk.fileId)).getD []
    totalBytes := (((disk (env.join STORAGE_ROOT firstChunk.fileId)).getD []).length : Int)
    sends := 1
    writes := 0
    trace := [.recv firstChunk,
      .openFile (env.join STORAGE_ROOT firstChunk.fileId) none,
      .send (statusChunk firstChunk.fileId
        (((disk (env.join STORAGE_ROOT firstChunk.fileId)).getD []).length : Int)) none] }

/-- The states at the end of each iteration of the loop of `recvLoop`, in order
(the last one is the state a failed write leaves, when a write fails). -/
def loopStates (env : Env) (fileId : String) :
    LoopState → FileChunk → List FileChunk → List LoopState
  | st, cur, [] =>
    match handleChunk env fileId st cur with
    | .error (_, st1) => [st1]
    | .ok st1 => [st1]
  | st, cur, next :: rest =>
    match handleChunk env fileId st cur with
    | .error (_, st1) => [st1]
    | .ok st1 =>
      st1 :: loopStates env fileId { st1 with trace := st1.trace ++ [.recv next] } next rest

/-! ## Properties of the metadata service -/

theorem string_append_ne_empty (a b : String) (h : a ≠ "") : a ++ b ≠ "" := by
  intro hab
  have hl : (a ++ b).length = 0 := by rw [hab]; rfl
  rw [String.length_append] at hl
  have ha : a.length = 0 := by omega
  apply h
  cases a with
  | mk l =>
    have : l = [] := List.length_eq_zero.mp ha
    subst this
    rfl

theorem Store.get_set_self (m : Store) (k : String) (v : FileMetadata) :
    (m.set k v).get k = some v := by
  simp [Store.get, Store.set]

theorem Store.find_filter_ne (m : Store) (k j : String) (h : j ≠ k) :
    (m.filter (fun e => !(e.1 == k))).find? (fun e => e.1 == j)
      = m.find? (fun e => e.1 == j) := by
  induction m with
  | nil => rfl
  | cons e rest ih =>
    by_cases hk : e.1 = k
    · have hj : ¬ e.1 = j := fun hj => h (hj.symm.trans hk)
      rw [List.filter_cons_of_neg (by simp [hk]), List.find?_cons_of_neg _ (by simp [hj])]
      exact ih
    · rw [List.filter_cons_of_pos (by simp [hk])]
      by_cases hj : e.1 = j
      · rw [List.find?_cons_of_pos _ (by simp [hj]), List.find?_cons_of_pos _ (by simp [hj])]
      · rw [List.find?_cons_of_neg _ (by simp [hj]), List.find?_cons_of_neg _ (by simp [hj])]
        exact ih

theorem Store.get_set_other (m : Store) (k j : String) (v : FileMetadata) (h : j ≠ k) :
    (m.set k v).get j = m.get j := by
  unfold Store.get Store.set
  rw [List.find?_cons_of_neg _ (by simp [Ne.symm h]), Store.find_filter_ne m k j h]

theorem RequestUpload_invalid (clk : Clock) (store : Store) (req : FileMetadata)
    (h : req.filename = "" ∨ req.sizeBytes ≤ 0) :
    RequestUpload clk store req =
      { record := none
        err := some (.status .InvalidArgument "Filename and size are required.")
        store := store } := by
  unfold RequestUpload
  rw [if_pos h]

theorem RequestUpload_valid (clk : Clock) (store : Store) (req : FileMetadata)
    (h : ¬ (req.filename = "" ∨ req.sizeBytes ≤ 0)) :
    RequestUpload clk store req =
      { record := some { req with fileId := "file_" ++ toString clk.unixNano
                                  storageNodeAddress := HARDCODED_STORAGE_ADDRESS
                                  authToken := "TOKEN-" ++ toString clk.unix }
        err := none
        store := store.set ("file_" ++ toString clk.unixNano)
          { req with fileId := "file_" ++ toString clk.unixNano
                     storageNodeAddress := HARDCODED_STORAGE_ADDRESS
                     authToken := "TOKEN-" ++ toString clk.unix } } := by
  unfold RequestUpload
  rw [if_neg h]

/-- C6. A request whose filename is empty or whose size is not positive is refused
with the `InvalidArgument` kind: no record is returned and the metadata store is
left exactly as it was, with the same entries and the same record count.
`RequestUpload` returns an error only for such requests. -/
theorem RequestUpload_rejects_invalid (clk : Clock) (store : Store) (req : FileMetadata) :
    ((req.filename = "" ∨ req.sizeBytes ≤ 0) →
      (RequestUpload clk store req).err.map GoError.code = some Code.InvalidArgument ∧
      (RequestUpload clk store req).record = none ∧
      (RequestUpload clk store req).store = store ∧
      (RequestUpload clk store req).store.count = store.count) ∧
    ((RequestUpload clk store req).err ≠ none → (req.filename = "" ∨ req.sizeBytes ≤ 0)) := by
  constructor
  · intro h
    rw [RequestUpload_invalid clk store req h]
    exact ⟨rfl, rfl, rfl, rfl⟩
  · intro herr
    by_contra h
    rw [RequestUpload_valid clk store req h] at herr
    exact herr rfl

theorem RequestUpload_rejects_invalid_witness :
    (RequestUpload ⟨1700000000000000000, 1700000000⟩
        [("file_1", ⟨"file_1", "old.bin", 9, "localhost:50052", "TOKEN-1"⟩)]
        ⟨"", "report.pdf", 0, "", ""⟩).err.map GoError.code = some Code.InvalidArgument ∧
    (RequestUpload ⟨1700000000000000000, 1700000000⟩
        [("file_1", ⟨"file_1", "old.bin", 9, "localhost:50052", "TOKEN-1"⟩)]
        ⟨"", "report.pdf", 0, "", ""⟩).store.count = 1 :=
  have h := (RequestUpload_rejects_invalid ⟨1700000000000000000, 1700000000⟩
    [("file_1", ⟨"file_1", "old.bin", 9, "localhost:50052", "TOKEN-1"⟩)]
    ⟨"", "report.pdf", 0, "", ""⟩).1 (Or.inr (by decide))
  ⟨h.1, h.2.2.2⟩

/-- C10. A request with a non-empty filename and a positive size succeeds: the
returned record has a non-empty `fileId`, the configured node address
`localhost:50052`, a non-empty `authToken`, and the filename and size of the
request; afterwards the store maps the returned `fileId` to that record and
holds under every other `fileId` what it held before. -/
theorem RequestUpload_registers (clk : Clock) (store : Store) (req : FileMetadata)
    (hname : req.filename ≠ "") (hsize : 0 < req.sizeBytes) :
    ∃ r : FileMetadata,
      (RequestUpload clk store req).err = none ∧
      (RequestUpload clk store req).record = some r ∧
      r.fileId ≠ "" ∧
      r.storageNodeAddress = "localhost:50052" ∧
      r.authToken ≠ "" ∧
      r.filename = req.filename ∧
      r.sizeBytes = req.sizeBytes ∧
      (RequestUpload clk store req).store.get r.fileId = some r ∧
      ∀ k, k ≠ r.fileId → (RequestUpload clk store req).store.get k = store.get k := by
  have h : ¬ (req.filename = "" ∨ req.sizeBytes ≤ 0) := by
    rintro (h | h)
    · exact hname h
    · omega
  rw [RequestUpload_valid clk store req h]
  refine ⟨_, rfl, rfl, ?_, rfl, ?_, rfl, rfl, ?_, ?_⟩
  · exact string_append_ne_empty _ _ (by decide)
  · exact string_append_ne_empty _ _ (by decide)
  · exact Store.get_set_self _ _ _
  · intro k hk
    exact Store.get_set_other _ _ _ _ hk

theorem RequestUpload_registers_witness :
    ∃ r : FileMetadata,
      (RequestUpload ⟨1700000000000000000, 1700000000⟩ [] ⟨"", "report.pdf", 2048, "", ""⟩).err
        = none ∧
      (RequestUpload ⟨1700000000000000000, 1700000000⟩ [] ⟨"", "report.pdf", 2048, "", ""⟩).record
        = some r ∧
      r.fileId ≠ "" ∧ r.storageNodeAddress = "localhost:50052" ∧ r.authToken ≠ "" :=
  have ⟨r, h1, h2, h3, h4, h5, _⟩ := RequestUpload_registers ⟨1700000000000000000, 1700000000⟩ []
    ⟨"", "report.pdf", 2048, "", ""⟩ (by decide) (by decide)
  ⟨r, h1, h2, h3, h4, h5⟩

/-- C5, at the input on which the code departs from it: two valid calls on one
store that read the same nanosecond clock value. Both succeed, the second returns
the `fileId` the first one issued, and it replaces the first record: the store
holds one record, the second call's, not two. -/
theorem RequestUpload_reissues_fileId_on_equal_clock :
    (runUploads []
      [(⟨1700000000000000000, 1700000000⟩, ⟨"", "a.txt", 10, "", ""⟩),
       (⟨1700000000000000000, 1700000000⟩, ⟨"", "b.txt", 20, "", ""⟩)]).1.map
        (fun r => (r.err, r.record.map FileMetadata.fileId))
      = [(none, some "file_1700000000000000000"), (none, some "file_1700000000000000000")] ∧
    (runUploads []
      [(⟨1700000000000000000, 1700000000⟩, ⟨"", "a.txt", 10, "", ""⟩),
       (⟨1700000000000000000, 1700000000⟩, ⟨"", "b.txt", 20, "", ""⟩)]).2
      = [("file_1700000000000000000",
          ⟨"file_1700000000000000000", "b.txt", 20, "localhost:50052", "TOKEN-1700000000"⟩)] := by
  decide

/-! ## Properties of the storage node -/

theorem receipts_append (a b : List Event) : receipts (a ++ b) = receipts a ++ receipts b := by
  simp [receipts]

theorem writtenBytes_append (a b : List Event) :
    writtenBytes (a ++ b) = writtenBytes a ++ writtenBytes b := by
  induction a with
  | nil => rfl
  | cons ev t ih => cases ev <;> simp [writtenBytes, ih]

theorem sentMessages_append (a b : List Event) :
    sentMessages (a ++ b) = sentMessages a ++ sentMessages b := by
  induction a with
  | nil => rfl
  | cons ev t ih => cases ev <;> simp [sentMessages, ih]

theorem sendUpdate_content (env : Env) (fileId : String) (st : LoopState) :
    (sendUpdate env fileId st).content = st.content := by
  unfold sendUpdate; split <;> rfl

theorem sendUpdate_totalBytes (env : Env) (fileId : String) (st : LoopState) :
    (sendUpdate env fileId st).totalBytes = st.totalBytes := by
  unfold sendUpdate; split <;> rfl

theorem sendUpdate_writes (env : Env) (fileId : String) (st : LoopState) :
    (sendUpdate env fileId st).writes = st.writes := by
  unfold sendUpdate; split <;> rfl

theorem sendUpdate_trace (env : Env) (fileId : String) (st : LoopState) :
    ∃ tail, (sendUpdate env fileId st).trace = st.trace ++ tail ∧
      receipts tail = [] ∧ writtenBytes tail = [] := by
  unfold sendUpdate; split
  · exact ⟨_, rfl, rfl, rfl⟩
  · exact ⟨[], (List.append_nil _).symm, rfl, rfl⟩

theorem writeChunk_skip (env : Env) (st : LoopState) (c : FileChunk)
    (h : c.offset < st.totalBytes) : writeChunk env st c = .ok st := by
  unfold writeChunk
  rw [if_neg (by omega)]

theorem handleChunk_skip (env : Env) (fileId : String) (st : LoopState) (c : FileChunk)
    (h : c.offset < st.totalBytes) :
    handleChunk env fileId st c = .ok (sendUpdate env fileId st) := by
  unfold handleChunk
  rw [writeChunk_skip env st c h]

theorem handleChunk_error (env : Env) (fileId : String) (st : LoopState) (c : FileChunk)
    (p : GoError × LoopState) (h : handleChunk env fileId st c = .error p) :
    ∃ tail, p.2.trace = st.trace ++ tail ∧ receipts tail = [] ∧
      p.2.content = st.content ++ writtenBytes tail ∧
      p.2.totalBytes = st.totalBytes ∧ p.1.code = Code.Internal := by
  unfold handleChunk writeChunk at h
  split at h
  · rename_i r hw
    split at hw
    · split at hw
      · rename_i n e _
        injection hw with hw
        injection h with h
        subst h; subst hw
        refine ⟨_, rfl, rfl, ?_, rfl, rfl⟩
        simp [writtenBytes, List.take_eq_take]
      · exact absurd hw (by simp)
    · exact absurd hw (by simp)
  · exact absurd h (by simp)

theorem handleChunk_ok (env : Env) (fileId : String) (st : LoopState) (c : FileChunk)
    (st1 : LoopState) (h : handleChunk env fileId st c = .ok st1) :
    ∃ tail, st1.trace = st.trace ++ tail ∧ receipts tail = [] ∧
      st1.content = st.content ++ writtenBytes tail ∧
      st1.content = (if c.offset ≥ st.totalBytes then st.content ++ c.data else st.content) ∧
      st1.totalBytes = (if c.offset ≥ st.totalBytes then st.totalBytes + (c.data.length : Int)
        else st.totalBytes) := by
  unfold handleChunk writeChunk at h
  split at h
  · exact absurd h (by simp)
  · rename_i st0 hw
    injection h with h
    subst h
    obtain ⟨tail, ht, hr, hb⟩ := sendUpdate_trace env fileId st0
    rw [sendUpdate_content, sendUpdate_totalBytes, ht]
    split at hw
    · rename_i hoff
      split at hw
      · exact absurd hw (by simp)
      · injection hw with hw
        subst hw
        refine ⟨Event.write c.data c.data.length none :: tail, by simp, ?_, ?_,
          by simp [hoff], by simp [hoff]⟩
        · rw [show (Event.write c.data c.data.length none :: tail)
            = [Event.write c.data c.data.length none] ++ tail from rfl, receipts_append, hr]
          rfl
        · simp [writtenBytes, hb]
    · rename_i hoff
      injection hw with hw
      subst hw
      exact ⟨tail, rfl, hr, by simp [hb], by simp [hoff], by simp [hoff]⟩

theorem recvLoop_extends (env : Env) (fileId : String) (ending : GoError)
    (rest : List FileChunk) :
    ∀ (st : LoopState) (cur : FileChunk),
      ∃ tail, (recvLoop env fileId ending st cur rest).2.trace = st.trace ++ tail ∧
        (recvLoop env fileId ending st cur rest).2.content = st.content ++ writtenBytes tail := by
  induction rest with
  | nil =>
    intro st cur
    unfold recvLoop
    cases hh : handleChunk env fileId st cur with
    | error p =>
      obtain ⟨tail, ht, _, hc, _⟩ := handleChunk_error env fileId st cur p hh
      exact ⟨tail, ht, hc⟩
    | ok st1 =>
      obtain ⟨tail, ht, _, hc, _⟩ := handleChunk_ok env fileId st cur st1 hh
      refine ⟨tail ++ [.recvErr ending], ?_, ?_⟩
      · by_cases he : ending = .eof <;> simp [he, ht]
      · by_cases he : ending = .eof <;> simp [he, hc, writtenBytes_append, writtenBytes]
  | cons next rest ih =>
    intro st cur
    unfold recvLoop
    cases hh : handleChunk env fileId st cur with
    | error p =>
      obtain ⟨tail, ht, _, hc, _⟩ := handleChunk_error env fileId st cur p hh
      exact ⟨tail, ht, hc⟩
    | ok st1 =>
      obtain ⟨tail, ht, _, hc, _⟩ := handleChunk_ok env fileId st cur st1 hh
      obtain ⟨tail2, ht2, hc2⟩ := ih { st1 with trace := st1.trace ++ [.recv next] } next
      refine ⟨tail ++ [.recv next] ++ tail2, ?_, ?_⟩
      · rw [ht2]
        simp only [ht, List.append_assoc]
      · rw [hc2]
        simp [hc, writtenBytes_append, writtenBytes]

theorem recvLoop_last_ok (env : Env) (fileId : String) (ending : GoError) (st : LoopState)
    (cur : FileChunk) (st1 : LoopState) (h : handleChunk env fileId st cur = .ok st1) :
    recvLoop env fileId ending st cur [] =
      (if ending = .eof then none else some ending,
        { st1 with trace := st1.trace ++ [.recvErr ending] }) := by
  unfold recvLoop
  rw [h]
  by_cases he : ending = .eof <;> simp [he]

theorem recvLoop_error (env : Env) (fileId : String) (ending : GoError) (st : LoopState)
    (cur : FileChunk) (rest : List FileChunk) (p : GoError × LoopState)
    (h : handleChunk env fileId st cur = .error p) :
    recvLoop env fileId ending st cur rest = (some p.1, p.2) := by
  cases rest <;> (unfold recvLoop; rw [h])

theorem recvLoop_next_ok (env : Env) (fileId : String) (ending : GoError) (st : LoopState)
    (cur next : FileChunk) (rest : List FileChunk) (st1 : LoopState)
    (h : handleChunk env fileId st cur = .ok st1) :
    recvLoop env fileId ending st cur (next :: rest) =
      recvLoop env fileId ending { st1 with trace := st1.trace ++ [.recv next] } next rest := by
  rw [recvLoop, h]

theorem receipts_self_append (t u : List Event) (ev : Event)
    (h : receipts t = receipts t ++ (u ++ [ev])) : False := by
  have hl := congrArg List.length h
  simp at hl

theorem acceptedChunks_cons (L : Int) (c : FileChunk) (cs : List FileChunk) :
    ((acceptedChunks L (c :: cs)).map FileChunk.data).flatten
      = (if c.offset ≥ L then c.data else []) ++
        ((acceptedChunks (if c.offset ≥ L then L + (c.data.length : Int) else L) cs).map
          FileChunk.data).flatten := by
  rw [acceptedChunks]
  by_cases ho : c.offset ≥ L <;> simp [ho]

theorem recvLoop_delivered (env : Env) (fileId : String) (ending : GoError)
    (rest : List FileChunk) :
    ∀ (st : LoopState) (cur : FileChunk),
      receipts (recvLoop env fileId ending st cur rest).2.trace
        = receipts st.trace ++ (rest.map Event.recv ++ [Event.recvErr ending]) →
      (recvLoop env fileId ending st cur rest).1 = (if ending = .eof then none else some ending) ∧
      (recvLoop env fileId ending st cur rest).2.content
        = st.content ++ ((acceptedChunks st.totalBytes (cur :: rest)).map FileChunk.data).flatten ∧
      (recvLoop env fileId ending st cur rest).2.trace.getLast? = some (.recvErr ending) := by
  induction rest with
  | nil =>
    intro st cur
    cases hh : handleChunk env fileId st cur with
    | error p =>
      obtain ⟨tail, ht, hr, _⟩ := handleChunk_error env fileId st cur p hh
      rw [recvLoop_error env fileId ending st cur [] p hh]
      intro hdel
      simp only [ht, receipts_append, hr, List.append_nil] at hdel
      exact (receipts_self_append _ _ _ hdel).elim
    | ok st1 =>
      obtain ⟨tail, _, _, _, hc, _⟩ := handleChunk_ok env fileId st cur st1 hh
      rw [recvLoop_last_ok env fileId ending st cur st1 hh]
      intro _
      refine ⟨rfl, ?_, by simp⟩
      rw [acceptedChunks_cons]
      simp only [hc]
      by_cases ho : cur.offset ≥ st.totalBytes <;> simp [ho, acceptedChunks]
  | cons next rest ih =>
    intro st cur
    cases hh : handleChunk env fileId st cur with
    | error p =>
      obtain ⟨tail, ht, hr, _⟩ := handleChunk_error env fileId st cur p hh
      rw [recvLoop_error env fileId ending st cur (next :: rest) p hh]
      intro hdel
      simp only [ht, receipts_append, hr, List.append_nil] at hdel
      exact (receipts_self_append _ _ _ hdel).elim
    | ok st1 =>
      obtain ⟨tail, ht, hr, _, hc, hb⟩ := handleChunk_ok env fileId st cur st1 hh
      rw [recvLoop_next_ok env fileId ending st cur next rest st1 hh]
      intro hdel
      have hpre : receipts ({ st1 with trace := st1.trace ++ [.recv next] } : LoopState).trace
          = receipts st.trace ++ [.recv next] := by
        simp only [ht, receipts_append, hr, List.append_nil]
        rfl
      obtain ⟨h1, h2, h3⟩ := ih { st1 with trace := st1.trace ++ [.recv next] } next (by
        rw [hpre]
        simpa using hdel)
      refine ⟨h1, ?_, h3⟩
      rw [h2, acceptedChunks_cons st.totalBytes cur (next :: rest)]
      simp only [hc, hb]
      by_cases ho : cur.offset ≥ st.totalBytes <;> simp [ho]

/-- C1. Resume idempotence. When the file holds `F`, the running length is the
length of `F`, and a chunk arrives whose offset is below that length (whatever
its payload, also one reaching beyond the end of the file), the iteration makes no
`Write`: the file is still `F` and the running length is unchanged, the only
action it may add is a status `Send`, and the loop does not return but goes on
to the next `Recv`, which decides how the run continues. -/
theorem StreamFile_replay_writes_nothing (env : Env) (fileId : String) (st : LoopState)
    (c : FileChunk) (F : List Byte) (hF : st.content = F)
    (hL : st.totalBytes = (F.length : Int)) (hoff : c.offset < (F.length : Int)) :
    ∃ st1, handleChunk env fileId st c = .ok st1 ∧
      st1.content = F ∧ st1.totalBytes = (F.length : Int) ∧ st1.writes = st.writes ∧
      (st1.trace = st.trace ∨ ∃ m e, st1.trace = st.trace ++ [.send m e]) ∧
      (∀ ending next rest, recvLoop env fileId ending st c (next :: rest)
        = recvLoop env fileId ending { st1 with trace := st1.trace ++ [.recv next] } next rest) ∧
      (∀ ending, (recvLoop env fileId ending st c []).1
        = (if ending = .eof then none else some ending) ∧
        (recvLoop env fileId ending st c []).2.content = F) := by
  have hskip := handleChunk_skip env fileId st c (by omega)
  refine ⟨sendUpdate env fileId st, hskip, ?_, ?_, ?_, ?_, ?_, ?_⟩
  · rw [sendUpdate_content, hF]
  · rw [sendUpdate_totalBytes, hL]
  · rw [sendUpdate_writes]
  · unfold sendUpdate
    split
    · exact Or.inr ⟨_, _, rfl⟩
    · exact Or.inl rfl
  · intro ending next rest
    rw [recvLoop, hskip]
  · intro ending
    rw [recvLoop, hskip]
    by_cases he : ending = .eof <;> simp [he, sendUpdate_content, hF]

theorem StreamFile_replay_writes_nothing_witness :
    ∃ st1, handleChunk Env.ideal "f" ⟨[1, 2, 3], 3, 1, 1, []⟩ ⟨"f", 1, 0, [9, 9, 9, 9]⟩ = .ok st1 ∧
      st1.content = [1, 2, 3] ∧ st1.totalBytes = 3 :=
  have ⟨st1, h1, h2, h3, _⟩ := StreamFile_replay_writes_nothing Env.ideal "f"
    ⟨[1, 2, 3], 3, 1, 1, []⟩ ⟨"f", 1, 0, [9, 9, 9, 9]⟩ [1, 2, 3] rfl rfl (by decide)
  ⟨st1, h1, h2, h3⟩

theorem StreamFile_no_chunk (env : Env) (disk : Disk) (ending : GoError) :
    StreamFile env disk ⟨[], ending⟩ =
      { err := some (.status .InvalidArgument
          ("Stream started without initial chunk: " ++ ending.Error))
        disk := disk
        trace := [.recvErr ending] } := rfl

theorem StreamFile_no_fileId (env : Env) (disk : Disk) (c : FileChunk) (rest : List FileChunk)
    (ending : GoError) (hid : c.fileId = "") :
    StreamFile env disk ⟨c :: rest, ending⟩ =
      { err := some (.status .InvalidArgument "File ID missing from first chunk.")
        disk := disk
        trace := [.recv c] } := by
  simp [StreamFile, hid]

theorem StreamFile_open_fails (env : Env) (disk : Disk) (c : FileChunk) (rest : List FileChunk)
    (ending : GoError) (hid : c.fileId ≠ "") (e : GoError) (ho : env.openErr = some e) :
    StreamFile env disk ⟨c :: rest, ending⟩ =
      { err := some (.status .Internal ("Failed to open file for writing: " ++ e.Error))
        disk := disk
        trace := [.recv c, .openFile (env.join STORAGE_ROOT c.fileId) (some e)] } := by
  simp [StreamFile, hid, ho]

theorem StreamFile_send_fails (env : Env) (disk : Disk) (c : FileChunk) (rest : List FileChunk)
    (ending : GoError) (hid : c.fileId ≠ "") (ho : env.openErr = none) (e : GoError)
    (hs : env.sendErr 0 = some e) :
    StreamFile env disk ⟨c :: rest, ending⟩ =
      { err := some e
        disk := Function.update disk (env.join STORAGE_ROOT c.fileId)
          (some ((disk (env.join STORAGE_ROOT c.fileId)).getD []))
        trace := [.recv c, .openFile (env.join STORAGE_ROOT c.fileId) none,
          .send (statusChunk c.fileId
            (((disk (env.join STORAGE_ROOT c.fileId)).getD []).length : Int)) (some e)] } := by
  simp [StreamFile, hid, ho, hs]

theorem StreamFile_enters_loop (env : Env) (disk : Disk) (c : FileChunk) (rest : List FileChunk)
    (ending : GoError) (hid : c.fileId ≠ "") (ho : env.openErr = none)
    (hs : env.sendErr 0 = none) :
    StreamFile env disk ⟨c :: rest, ending⟩ =
      { err := (recvLoop env c.fileId ending (loopStart env disk c) c rest).1
        disk := Function.update disk (env.join STORAGE_ROOT c.fileId)
          (some (recvLoop env c.fileId ending (loopStart env disk c) c rest).2.content)
        trace := (recvLoop env c.fileId ending (loopStart env disk c) c rest).2.trace } := by
  simp [StreamFile, hid, ho, hs, loopStart]

theorem durableLength_eq (disk : Disk) (path : String) :
    ((disk path).getD []).length = durableLength disk path := by
  unfold durableLength
  cases disk path <;> rfl

/-- C9. First-chunk validation. When the channel ends, cleanly or with an error,
before any message, or the first chunk it delivers has an empty `fileId`,
`StreamFile` fails with the `InvalidArgument` kind; the durable files are what
they were, and the single receive is the only action of the run: no file is
opened or created, nothing is written and nothing is sent. -/
theorem StreamFile_first_chunk_validation (env : Env) (disk : Disk) (ch : Channel)
    (h : ∀ c ∈ ch.chunks.head?, c.fileId = "") :
    (StreamFile env disk ch).err.map GoError.code = some Code.InvalidArgument ∧
    (StreamFile env disk ch).disk = disk ∧
    (StreamFile env disk ch).trace =
      (match ch.chunks with
       | [] => [.recvErr ch.ending]
       | c :: _ => [.recv c]) := by
  obtain ⟨chunks, ending⟩ := ch
  cases chunks with
  | nil => exact ⟨rfl, rfl, rfl⟩
  | cons c rest =>
    have hc : c.fileId = "" := h c (by simp)
    rw [StreamFile_no_fileId env disk c rest ending hc]
    exact ⟨rfl, rfl, rfl⟩

theorem StreamFile_first_chunk_validation_witness :
    (StreamFile Env.ideal (fun _ => none) ⟨[⟨"", 0, 0, [1, 2]⟩, ⟨"f", 2, 1, [3]⟩], .eof⟩).err.map
      GoError.code = some Code.InvalidArgument ∧
    (StreamFile Env.ideal (fun _ => none) ⟨[⟨"", 0, 0, [1, 2]⟩, ⟨"f", 2, 1, [3]⟩], .eof⟩).trace
      = [.recv ⟨"", 0, 0, [1, 2]⟩] :=
  have h := StreamFile_first_chunk_validation Env.ideal (fun _ => none)
    ⟨[⟨"", 0, 0, [1, 2]⟩, ⟨"f", 2, 1, [3]⟩], .eof⟩ (by decide)
  ⟨h.1, h.2.2⟩

/-- C7. Initial resume status. For a first chunk with a non-empty `fileId`, with
`L` the byte length of that file before the run (0 when there is none): once
`OpenFile` succeeds, the run starts with the receive of the first chunk, the
opening of the file, and the `Send` of the chunk with that `fileId`, empty data
and offset `L`, so that this is the first message sent and no `Write` comes
before it; when `OpenFile` fails, the run sends nothing at all. -/
theorem StreamFile_initial_status (env : Env) (disk : Disk) (firstChunk : FileChunk)
    (rest : List FileChunk) (ending : GoError) (hid : firstChunk.fileId ≠ "") :
    (env.openErr = none →
      ∃ tail, (StreamFile env disk ⟨firstChunk :: rest, ending⟩).trace =
        [.recv firstChunk,
         .openFile (env.join STORAGE_ROOT firstChunk.fileId) none,
         .send { fileId := firstChunk.fileId
                 offset := (durableLength disk (env.join STORAGE_ROOT firstChunk.fileId) : Int)
                 chunkIndex := 0
                 data := [] } (env.sendErr 0)] ++ tail) ∧
    (env.openErr ≠ none →
      sentMessages (StreamFile env disk ⟨firstChunk :: rest, ending⟩).trace = [] ∧
      (StreamFile env disk ⟨firstChunk :: rest, ending⟩).disk = disk) := by
  constructor
  · intro hopen
    cases hs : env.sendErr 0 with
    | some e =>
      rw [StreamFile_send_fails env disk firstChunk rest ending hid hopen e hs]
      exact ⟨[], by simp [statusChunk, durableLength_eq]⟩
    | none =>
      rw [StreamFile_enters_loop env disk firstChunk rest ending hid hopen hs]
      obtain ⟨tail, ht, _⟩ := recvLoop_extends env firstChunk.fileId ending rest
        (loopStart env disk firstChunk) firstChunk
      refine ⟨tail, ?_⟩
      simp only [ht]
      simp [loopStart, statusChunk, durableLength_eq]
  · intro hopen
    cases ho : env.openErr with
    | none => exact absurd ho hopen
    | some e =>
      rw [StreamFile_open_fails env disk firstChunk rest ending hid e ho]
      exact ⟨rfl, rfl⟩

theorem StreamFile_initial_status_witness :
    ∃ tail, (StreamFile Env.ideal
        (fun p => if p = "./storage_data/f" then some [7, 8, 9] else none)
        ⟨[⟨"f", 0, 0, [7, 8, 9, 10]⟩], .eof⟩).trace =
      [.recv ⟨"f", 0, 0, [7, 8, 9, 10]⟩,
       .openFile (Env.ideal.join STORAGE_ROOT "f") none,
       .send { fileId := "f"
               offset := (durableLength
                 (fun p => if p = "./storage_data/f" then some [7, 8, 9] else none)
                 (Env.ideal.join STORAGE_ROOT "f") : Int)
               chunkIndex := 0
               data := [] } (Env.ideal.sendErr 0)] ++ tail :=
  (StreamFile_initial_status Env.ideal
    (fun p => if p = "./storage_data/f" then some [7, 8, 9] else none)
    ⟨"f", 0, 0, [7, 8, 9, 10]⟩ [] .eof (by decide)).1 rfl

theorem acceptedChunks_chained (cs : List FileChunk) :
    ∀ L : Int, chained L cs → acceptedChunks L cs = cs := by
  induction cs with
  | nil => intro _ _; rfl
  | cons c cs ih =>
    intro L h
    obtain ⟨h1, h2⟩ := h
    rw [acceptedChunks, if_pos (by omega), ih _ h2]

theorem length_flatten_data (l : List FileChunk) :
    ((l.map FileChunk.data).flatten).length = (l.map (fun c => c.data.length)).sum := by
  rw [List.length_flatten, List.map_map]
  rfl

theorem StreamFile_received_all (env : Env) (disk : Disk) (c : FileChunk) (cs : List FileChunk)
    (ending : GoError)
    (hrecv : receipts (StreamFile env disk ⟨c :: cs, ending⟩).trace
      = (c :: cs).map Event.recv ++ [Event.recvErr ending]) :
    (StreamFile env disk ⟨c :: cs, ending⟩).err = (if ending = .eof then none else some ending) ∧
    (StreamFile env disk ⟨c :: cs, ending⟩).disk (env.join STORAGE_ROOT c.fileId)
      = some ((disk (env.join STORAGE_ROOT c.fileId)).getD [] ++
          ((acceptedChunks (((disk (env.join STORAGE_ROOT c.fileId)).getD []).length : Int)
            (c :: cs)).map FileChunk.data).flatten) ∧
    (StreamFile env disk ⟨c :: cs, ending⟩).trace.getLast? = some (.recvErr ending) := by
  by_cases hid : c.fileId = ""
  · rw [StreamFile_no_fileId env disk c cs ending hid] at hrecv
    have hl := congrArg List.length hrecv
    simp [receipts] at hl
  cases ho : env.openErr with
  | some e =>
    rw [StreamFile_open_fails env disk c cs ending hid e ho] at hrecv
    have hl := congrArg List.length hrecv
    simp [receipts] at hl
  | none =>
    cases hs : env.sendErr 0 with
    | some e =>
      rw [StreamFile_send_fails env disk c cs ending hid ho e hs] at hrecv
      have hl := congrArg List.length hrecv
      simp [receipts] at hl
    | none =>
      rw [StreamFile_enters_loop env disk c cs ending hid ho hs] at hrecv ⊢
      have hstart : receipts (loopStart env disk c).trace = [.recv c] := rfl
      obtain ⟨h1, h2, h3⟩ := recvLoop_delivered env c.fileId ending cs (loopStart env disk c) c (by
        rw [hstart]
        simpa using hrecv)
      refine ⟨h1, ?_, h3⟩
      simp only [Function.update_same, h2]
      rfl

theorem handleChunk_no_write_failure (env : Env) (fileId : String) (st : LoopState)
    (c : FileChunk) (hw : ∀ k, env.writeErr k = none) :
    ∃ st1, handleChunk env fileId st c = .ok st1 := by
  unfold handleChunk writeChunk
  by_cases ho : c.offset ≥ st.totalBytes
  · simp only [ho, if_true, hw]
    exact ⟨_, rfl⟩
  · simp only [ho, if_false]
    exact ⟨_, rfl⟩

theorem recvLoop_receives_all (env : Env) (fileId : String) (ending : GoError)
    (hw : ∀ k, env.writeErr k = none) (rest : List FileChunk) :
    ∀ (st : LoopState) (cur : FileChunk),
      receipts (recvLoop env fileId ending st cur rest).2.trace
        = receipts st.trace ++ (rest.map Event.recv ++ [Event.recvErr ending]) := by
  induction rest with
  | nil =>
    intro st cur
    obtain ⟨st1, hh⟩ := handleChunk_no_write_failure env fileId st cur hw
    obtain ⟨tail, ht, hr, _⟩ := handleChunk_ok env fileId st cur st1 hh
    rw [recvLoop_last_ok env fileId ending st cur st1 hh]
    simp only [ht, receipts_append, hr, List.append_nil, List.map_nil, List.nil_append]
    rfl
  | cons next rest ih =>
    intro st cur
    obtain ⟨st1, hh⟩ := handleChunk_no_write_failure env fileId st cur hw
    obtain ⟨tail, ht, hr, _⟩ := handleChunk_ok env fileId st cur st1 hh
    rw [recvLoop_next_ok env fileId ending st cur next rest st1 hh,
      ih { st1 with trace := st1.trace ++ [.recv next] } next]
    simp only [ht, receipts_append, hr, List.append_nil, List.map_cons, List.append_assoc]
    rfl

/-- C2. Append correctness. For chunks `c1..cN` (`N ≥ 1`) with a non-empty
`fileId` on `c1`, the first offset 0 and each next offset the end of the chunk
before, against a file that is absent or empty, with no `Write` failing, in a
run that ends by receiving the clean end of input, `StreamFile` returns success
and the file is exactly `data(c1) ++ ... ++ data(cN)`, of length the sum of the
chunk sizes. -/
theorem StreamFile_append_correct (env : Env) (disk : Disk) (c : FileChunk)
    (cs : List FileChunk) (hid : c.fileId ≠ "")
    (hfresh : disk (env.join STORAGE_ROOT c.fileId) = none ∨
      disk (env.join STORAGE_ROOT c.fileId) = some [])
    (hoff : chained 0 (c :: cs))
    (hw : ∀ k, env.writeErr k = none)
    (hend : (StreamFile env disk ⟨c :: cs, .eof⟩).trace.getLast? = some (.recvErr .eof)) :
    (StreamFile env disk ⟨c :: cs, .eof⟩).err = none ∧
    (StreamFile env disk ⟨c :: cs, .eof⟩).disk (env.join STORAGE_ROOT c.fileId)
      = some (((c :: cs).map FileChunk.data).flatten) ∧
    durableLength (StreamFile env disk ⟨c :: cs, .eof⟩).disk (env.join STORAGE_ROOT c.fileId)
      = ((c :: cs).map (fun x => x.data.length)).sum := by
  have hrecv : receipts (StreamFile env disk ⟨c :: cs, .eof⟩).trace
      = (c :: cs).map Event.recv ++ [Event.recvErr .eof] := by
    cases ho : env.openErr with
    | some e =>
      rw [StreamFile_open_fails env disk c cs .eof hid e ho] at hend
      simp at hend
    | none =>
      cases hs : env.sendErr 0 with
      | some e =>
        rw [StreamFile_send_fails env disk c cs .eof hid ho e hs] at hend
        simp at hend
      | none =>
        rw [StreamFile_enters_loop env disk c cs .eof hid ho hs]
        simp only [recvLoop_receives_all env c.fileId .eof hw cs (loopStart env disk c) c]
        rfl
  obtain ⟨h1, h2, _⟩ := StreamFile_received_all env disk c cs .eof hrecv
  have hF : (disk (env.join STORAGE_ROOT c.fileId)).getD [] = [] := by
    rcases hfresh with h | h <;> rw [h] <;> rfl
  rw [hF] at h2
  simp only [List.length_nil, Nat.cast_zero, List.nil_append] at h2
  rw [acceptedChunks_chained _ _ hoff] at h2
  refine ⟨by simpa using h1, h2, ?_⟩
  unfold durableLength
  rw [h2]
  exact length_flatten_data _

theorem StreamFile_append_correct_witness :
    (StreamFile Env.ideal (fun _ => none)
      ⟨[⟨"f", 0, 0, [1, 2]⟩, ⟨"f", 2, 1, [3]⟩, ⟨"f", 3, 2, [4, 5, 6]⟩], .eof⟩).err = none ∧
    (StreamFile Env.ideal (fun _ => none)
      ⟨[⟨"f", 0, 0, [1, 2]⟩, ⟨"f", 2, 1, [3]⟩, ⟨"f", 3, 2, [4, 5, 6]⟩], .eof⟩).disk
        (Env.ideal.join STORAGE_ROOT "f")
      = some (([⟨"f", 0, 0, [1, 2]⟩, ⟨"f", 2, 1, [3]⟩, ⟨"f", 3, 2, [4, 5, 6]⟩].map
          FileChunk.data).flatten) :=
  have h := StreamFile_append_correct Env.ideal (fun _ => none) ⟨"f", 0, 0, [1, 2]⟩
    [⟨"f", 2, 1, [3]⟩, ⟨"f", 3, 2, [4, 5, 6]⟩] (by decide) (Or.inl rfl)
    ⟨rfl, rfl, rfl, trivial⟩ (fun _ => rfl) (by decide)
  ⟨h.1, h.2.1⟩

/-- C4. Abort mid-stream. When the run receives `K ≥ 1` chunks and the next
receive reports an error other than the clean end of input, `StreamFile` returns
that very error; the failed receive is the last action of the run, so nothing is
written after it; and against a file that was absent or empty the file holds
exactly the payloads of the accepted chunks among those `K` (each chunk whose
offset was not behind the running length when it was handled), so its length is
the sum of their sizes. -/
theorem StreamFile_abort_mid_stream (env : Env) (disk : Disk) (c : FileChunk)
    (cs : List FileChunk) (e : GoError) (he : e ≠ .eof)
    (hfresh : disk (env.join STORAGE_ROOT c.fileId) = none ∨
      disk (env.join STORAGE_ROOT c.fileId) = some [])
    (hrecv : receipts (StreamFile env disk ⟨c :: cs, e⟩).trace
      = (c :: cs).map Event.recv ++ [Event.recvErr e]) :
    (StreamFile env disk ⟨c :: cs, e⟩).err = some e ∧
    (StreamFile env disk ⟨c :: cs, e⟩).trace.getLast? = some (.recvErr e) ∧
    (StreamFile env disk ⟨c :: cs, e⟩).disk (env.join STORAGE_ROOT c.fileId)
      = some (((acceptedChunks 0 (c :: cs)).map FileChunk.data).flatten) ∧
    durableLength (StreamFile env disk ⟨c :: cs, e⟩).disk (env.join STORAGE_ROOT c.fileId)
      = ((acceptedChunks 0 (c :: cs)).map (fun x => x.data.length)).sum := by
  obtain ⟨h1, h2, h3⟩ := StreamFile_received_all env disk c cs e hrecv
  have hF : (disk (env.join STORAGE_ROOT c.fileId)).getD [] = [] := by
    rcases hfresh with h | h <;> rw [h] <;> rfl
  rw [hF] at h2
  simp only [List.length_nil, Nat.cast_zero, List.nil_append] at h2
  refine ⟨by simpa [he] using h1, h3, h2, ?_⟩
  unfold durableLength
  rw [h2]
  exact length_flatten_data _

theorem StreamFile_abort_mid_stream_witness :
    (StreamFile Env.ideal (fun _ => none)
      ⟨[⟨"f", 0, 0, [1, 2]⟩, ⟨"f", 0, 1, [1, 2]⟩, ⟨"f", 2, 2, [3, 4, 5]⟩],
        .status .Canceled "context canceled"⟩).err
      = some (.status .Canceled "context canceled") ∧
    durableLength (StreamFile Env.ideal (fun _ => none)
      ⟨[⟨"f", 0, 0, [1, 2]⟩, ⟨"f", 0, 1, [1, 2]⟩, ⟨"f", 2, 2, [3, 4, 5]⟩],
        .status .Canceled "context canceled"⟩).disk (Env.ideal.join STORAGE_ROOT "f")
      = ((acceptedChunks 0
          [⟨"f", 0, 0, [1, 2]⟩, ⟨"f", 0, 1, [1, 2]⟩, ⟨"f", 2, 2, [3, 4, 5]⟩]).map
            (fun x => x.data.length)).sum :=
  have h := StreamFile_abort_mid_stream Env.ideal (fun _ => none) ⟨"f", 0, 0, [1, 2]⟩
    [⟨"f", 0, 1, [1, 2]⟩, ⟨"f", 2, 2, [3, 4, 5]⟩] (.status .Canceled "context canceled")
    (by decide) (Or.inl rfl) (by decide)
  ⟨h.1, h.2.2.2⟩

theorem handleChunk_grows (env : Env) (fileId : String) (st : LoopState) (c : FileChunk)
    (st1 : LoopState) (h : handleChunk env fileId st c = .ok st1) :
    st.totalBytes ≤ st1.totalBytes := by
  obtain ⟨_, _, _, _, _, hb⟩ := handleChunk_ok env fileId st c st1 h
  rw [hb]
  split <;> omega

theorem loopStates_extends (env : Env) (fileId : String) (rest : List FileChunk) :
    ∀ (st : LoopState) (cur : FileChunk), ∀ s ∈ loopStates env fileId st cur rest,
      ∃ tail, s.trace = st.trace ++ tail ∧ s.content = st.content ++ writtenBytes tail ∧
        st.totalBytes ≤ s.totalBytes := by
  induction rest with
  | nil =>
    intro st cur s hs
    unfold loopStates at hs
    cases hh : handleChunk env fileId st cur with
    | error p =>
      obtain ⟨tail, ht, _, hc, hb, _⟩ := handleChunk_error env fileId st cur p hh
      rw [hh] at hs
      simp only [List.mem_singleton] at hs
      subst hs
      exact ⟨tail, ht, hc, by omega⟩
    | ok st1 =>
      obtain ⟨tail, ht, _, hc, _⟩ := handleChunk_ok env fileId st cur st1 hh
      have hg := handleChunk_grows env fileId st cur st1 hh
      rw [hh] at hs
      simp only [List.mem_singleton] at hs
      subst hs
      exact ⟨tail, ht, hc, hg⟩
  | cons next rest ih =>
    intro st cur s hs
    unfold loopStates at hs
    cases hh : handleChunk env fileId st cur with
    | error p =>
      obtain ⟨tail, ht, _, hc, hb, _⟩ := handleChunk_error env fileId st cur p hh
      rw [hh] at hs
      simp only [List.mem_singleton] at hs
      subst hs
      exact ⟨tail, ht, hc, by omega⟩
    | ok st1 =>
      obtain ⟨tail, ht, _, hc, _⟩ := handleChunk_ok env fileId st cur st1 hh
      have hg := handleChunk_grows env fileId st cur st1 hh
      rw [hh] at hs
      simp only [List.mem_cons] at hs
      rcases hs with hs | hs
      · subst hs
        exact ⟨tail, ht, hc, hg⟩
      · obtain ⟨tail2, ht2, hc2, hg2⟩ :=
          ih { st1 with trace := st1.trace ++ [.recv next] } next s hs
        refine ⟨tail ++ [.recv next] ++ tail2, ?_, ?_, ?_⟩
        · rw [ht2]
          simp only [ht, List.append_assoc]
        · rw [hc2]
          simp [hc, writtenBytes_append, writtenBytes]
        · exact le_trans hg hg2

theorem loopStates_pairwise (env : Env) (fileId : String) (rest : List FileChunk) :
    ∀ (st : LoopState) (cur : FileChunk),
      List.Pairwise (fun a b => a.content <+: b.content ∧ a.totalBytes ≤ b.totalBytes)
        (st :: loopStates env fileId st cur rest) := by
  induction rest with
  | nil =>
    intro st cur
    rw [List.pairwise_cons]
    refine ⟨?_, ?_⟩
    · intro s hs
      obtain ⟨tail, _, hc, hg⟩ := loopStates_extends env fileId [] st cur s hs
      exact ⟨hc ▸ List.prefix_append _ _, hg⟩
    · unfold loopStates
      cases handleChunk env fileId st cur <;> simp
  | cons next rest ih =>
    intro st cur
    rw [List.pairwise_cons]
    refine ⟨?_, ?_⟩
    · intro s hs
      obtain ⟨tail, _, hc, hg⟩ := loopStates_extends env fileId (next :: rest) st cur s hs
      exact ⟨hc ▸ List.prefix_append _ _, hg⟩
    · unfold loopStates
      cases hh : handleChunk env fileId st cur with
      | error p => simp
      | ok st1 =>
        have h := ih { st1 with trace := st1.trace ++ [.recv next] } next
        rw [List.pairwise_cons] at h ⊢
        exact h

theorem loopStates_last (env : Env) (fileId : String) (ending : GoError)
    (rest : List FileChunk) :
    ∀ (st : LoopState) (cur : FileChunk),
      (loopStates env fileId st cur rest).getLast?.map LoopState.content
        = some (recvLoop env fileId ending st cur rest).2.content := by
  induction rest with
  | nil =>
    intro st cur
    unfold loopStates
    cases hh : handleChunk env fileId st cur with
    | error p => rw [recvLoop_error env fileId ending st cur [] p hh]; rfl
    | ok st1 => rw [recvLoop_last_ok env fileId ending st cur st1 hh]; rfl
  | cons next rest ih =>
    intro st cur
    unfold loopStates
    cases hh : handleChunk env fileId st cur with
    | error p => rw [recvLoop_error env fileId ending st cur (next :: rest) p hh]; rfl
    | ok st1 =>
      rw [recvLoop_next_ok env fileId ending st cur next rest st1 hh]
      have h := ih { st1 with trace := st1.trace ++ [.recv next] } next
      simp only []
      rw [← h]
      cases hl : loopStates env fileId { st1 with trace := st1.trace ++ [.recv next] } next rest with
      | nil => rw [hl] at h; simp at h
      | cons a l => simp [List.getLast?_cons_cons]

theorem StreamFile_disk_cases (env : Env) (disk : Disk) (c : FileChunk) (cs : List FileChunk)
    (ending : GoError) :
    (StreamFile env disk ⟨c :: cs, ending⟩).disk = disk ∨
    ∃ w, (StreamFile env disk ⟨c :: cs, ending⟩).disk =
      Function.update disk (env.join STORAGE_ROOT c.fileId)
        (some ((disk (env.join STORAGE_ROOT c.fileId)).getD [] ++ w)) := by
  by_cases hid : c.fileId = ""
  · rw [StreamFile_no_fileId env disk c cs ending hid]
    exact Or.inl rfl
  cases ho : env.openErr with
  | some e =>
    rw [StreamFile_open_fails env disk c cs ending hid e ho]
    exact Or.inl rfl
  | none =>
    cases hs : env.sendErr 0 with
    | some e =>
      rw [StreamFile_send_fails env disk c cs ending hid ho e hs]
      exact Or.inr ⟨[], by simp⟩
    | none =>
      rw [StreamFile_enters_loop env disk c cs ending hid ho hs]
      obtain ⟨tail, _, hc⟩ := recvLoop_extends env c.fileId ending cs (loopStart env disk c) c
      exact Or.inr ⟨writtenBytes tail, by rw [hc]; rfl⟩

/-- C3. Append-only invariant. For every initial disk and every run of `StreamFile`
over received chunks of any offsets and payloads, however the channel ends and
whatever fails: every file that existed still exists and begins with its old
content, and no file but the target is touched; in the loop, the state after
each iteration extends the content of the state before the loop and of every
earlier iteration and has a running length at least theirs; the content after
an iteration is the initial content followed by exactly the bytes written so
far, in the order written, so every write landed at the end of the file; and the
file the run leaves is the content after its last iteration. -/
theorem StreamFile_append_only (env : Env) (disk : Disk) (c : FileChunk)
    (cs : List FileChunk) (ending : GoError) :
    (∀ p G, disk p = some G →
      ∃ G', (StreamFile env disk ⟨c :: cs, ending⟩).disk p = some G' ∧ G <+: G') ∧
    (∀ p, p ≠ env.join STORAGE_ROOT c.fileId →
      (StreamFile env disk ⟨c :: cs, ending⟩).disk p = disk p) ∧
    List.Pairwise (fun a b => a.content <+: b.content ∧ a.totalBytes ≤ b.totalBytes)
      (loopStart env disk c :: loopStates env c.fileId (loopStart env disk c) c cs) ∧
    (∀ s ∈ loopStates env c.fileId (loopStart env disk c) c cs,
      s.content = (disk (env.join STORAGE_ROOT c.fileId)).getD [] ++ writtenBytes s.trace) ∧
    (c.fileId ≠ "" → env.openErr = none → env.sendErr 0 = none →
      (StreamFile env disk ⟨c :: cs, ending⟩).disk (env.join STORAGE_ROOT c.fileId)
        = (loopStates env c.fileId (loopStart env disk c) c cs).getLast?.map
            LoopState.content) := by
  refine ⟨?_, ?_, loopStates_pairwise env c.fileId cs (loopStart env disk c) c, ?_, ?_⟩
  · intro p G hG
    rcases StreamFile_disk_cases env disk c cs ending with h | ⟨w, h⟩
    · rw [h]
      exact ⟨G, hG, List.prefix_refl G⟩
    · rw [h]
      by_cases hp : p = env.join STORAGE_ROOT c.fileId
      · subst hp
        rw [Function.update_same, hG]
        exact ⟨G ++ w, rfl, List.prefix_append G w⟩
      · rw [Function.update_noteq hp]
        exact ⟨G, hG, List.prefix_refl G⟩
  · intro p hp
    rcases StreamFile_disk_cases env disk c cs ending with h | ⟨w, h⟩
    · rw [h]
    · rw [h, Function.update_noteq hp]
  · intro s hs
    obtain ⟨tail, ht, hc, _⟩ := loopStates_extends env c.fileId cs (loopStart env disk c) c s hs
    rw [hc, ht, writtenBytes_append]
    rfl
  · intro hid ho hs
    rw [StreamFile_enters_loop env disk c cs ending hid ho hs]
    simp only [Function.update_same]
    exact (loopStates_last env c.fileId ending cs (loopStart env disk c) c).symm

theorem StreamFile_append_only_witness :
    ∃ G', (StreamFile Env.ideal (fun p => if p = "./storage_data/f" then some [7, 8] else none)
        ⟨[⟨"f", 0, 0, [1, 2]⟩, ⟨"f", 9, 1, [3]⟩, ⟨"f", 1, 2, [4, 5, 6]⟩],
          .other "connection reset"⟩).disk "./storage_data/f" = some G' ∧
      [7, 8] <+: G' :=
  (StreamFile_append_only Env.ideal (fun p => if p = "./storage_data/f" then some [7, 8] else none)
    ⟨"f", 0, 0, [1, 2]⟩ [⟨"f", 9, 1, [3]⟩, ⟨"f", 1, 2, [4, 5, 6]⟩]
    (.other "connection reset")).1 "./storage_data/f" [7, 8] (by decide)

theorem StreamFile_single_write (env : Env) (disk : Disk) (c : FileChunk) (F : List Byte)
    (hid : c.fileId ≠ "") (ho : env.openErr = none) (hs : env.sendErr 0 = none)
    (hw : env.writeErr 0 = none) (hF : disk (env.join STORAGE_ROOT c.fileId) = some F)
    (hoff : c.offset ≥ (F.length : Int))
    (hmod : ((F.length : Int) + (c.data.length : Int)).tmod (1024 * 1024) ≠ 0) :
    (StreamFile env disk ⟨[c], .eof⟩).err = none ∧
    (StreamFile env disk ⟨[c], .eof⟩).disk (env.join STORAGE_ROOT c.fileId)
      = some (F ++ c.data) ∧
    (StreamFile env disk ⟨[c], .eof⟩).trace =
      [.recv c, .openFile (env.join STORAGE_ROOT c.fileId) none,
       .send (statusChunk c.fileId (F.length : Int)) none,
       .write c.data c.data.length none, .recvErr .eof] := by
  have hstart : loopStart env disk c =
      { content := F, totalBytes := (F.length : Int), sends := 1, writes := 0
        trace := [.recv c, .openFile (env.join STORAGE_ROOT c.fileId) none,
          .send (statusChunk c.fileId (F.length : Int)) none] } := by
    unfold loopStart
    rw [hF]
    rfl
  have hh : handleChunk env c.fileId (loopStart env disk c) c =
      .ok { content := F ++ c.data, totalBytes := (F.length : Int) + (c.data.length : Int)
            sends := 1, writes := 1
            trace := [.recv c, .openFile (env.join STORAGE_ROOT c.fileId) none,
              .send (statusChunk c.fileId (F.length : Int)) none,
              .write c.data c.data.length none] } := by
    rw [hstart]
    unfold handleChunk writeChunk
    simp only [hw, hoff, if_true]
    unfold sendUpdate
    rw [if_neg hmod]
    rfl
  rw [StreamFile_enters_loop env disk c [] .eof hid ho hs,
    recvLoop_last_ok env c.fileId .eof (loopStart env disk c) c _ hh]
  refine ⟨rfl, ?_, rfl⟩
  simp only [Function.update_same]

/-- C8, at the input on which the code departs from it: a file of 1048575 bytes
and one chunk of 2 bytes at offset 1048575, then the clean end of input, with
nothing failing. The write takes the durable length from 1048575 to 1048577,
across the boundary 1048576, and the run ends in success, yet the only message
sent is the initial status (offset 1048575): no status follows the crossing. -/
theorem StreamFile_crosses_boundary_without_status :
    (StreamFile Env.ideal
      (fun p => if p = "./storage_data/f" then some (List.replicate 1048575 0) else none)
      ⟨[⟨"f", 1048575, 0, [1, 2]⟩], .eof⟩).err = none ∧
    durableLength (StreamFile Env.ideal
      (fun p => if p = "./storage_data/f" then some (List.replicate 1048575 0) else none)
      ⟨[⟨"f", 1048575, 0, [1, 2]⟩], .eof⟩).disk "./storage_data/f" = 1048577 ∧
    sentMessages (StreamFile Env.ideal
      (fun p => if p = "./storage_data/f" then some (List.replicate 1048575 0) else none)
      ⟨[⟨"f", 1048575, 0, [1, 2]⟩], .eof⟩).trace
      = [{ fileId := "f", offset := 1048575, chunkIndex := 0, data := [] }] := by
  have hlen : (List.replicate 1048575 (0 : Byte)).length = 1048575 := List.length_replicate _ _
  have h := StreamFile_single_write Env.ideal
    (fun p => if p = "./storage_data/f" then some (List.replicate 1048575 0) else none)
    ⟨"f", 1048575, 0, [1, 2]⟩ (List.replicate 1048575 0) (by decide) rfl rfl rfl rfl
    (by rw [hlen]; decide) (by rw [hlen]; decide)
  obtain ⟨h1, h2, h3⟩ := h
  refine ⟨h1, ?_, ?_⟩
  · unfold durableLength
    have h2' : (StreamFile Env.ideal
        (fun p => if p = "./storage_data/f" then some (List.replicate 1048575 0) else none)
        ⟨[⟨"f", 1048575, 0, [1, 2]⟩], .eof⟩).disk "./storage_data/f"
        = some (List.replicate 1048575 0 ++ [1, 2]) := h2
    rw [h2']
    show (List.replicate 1048575 (0 : Byte) ++ [1, 2]).length = 1048577
    rw [List.length_append, hlen]
    rfl
  · rw [h3, hlen]
    rfl

end Upload
